import Mathlib

/-!
Verification development for the ultra-doc-intelligence repository.

The definitions below are a shallow embedding of the TypeScript sources:

- `src/lib/rag/workflow.ts` (evidence pool merging, answer confidence,
  guardrail finalization),
- `src/lib/chunking.ts` (page-aware overlapping chunking),
- `src/lib/extraction/shipment.ts` (field normalization and extraction
  confidence),
- `src/lib/services/doc-intelligence.ts` (scope resolution and upload).

JavaScript strings are modelled as `List Char` (`JStr`); JavaScript numbers
as `ℚ` (all values the program manipulates are small decimals, and the
4-decimal rounding helper is exact on them); async external calls (LLM,
vector store, registry reads) are modelled as explicit function parameters.
-/

/-! ## JavaScript string primitives -/

/-- JavaScript strings modelled as lists of characters. -/
abbrev JStr := List Char

/-- Whitespace as used by the JavaScript trim and split operations
(ASCII whitespace; the exotic Unicode space code points are not modelled). -/
def isJsSpace (c : Char) : Bool :=
  c == ' ' || c == '\t' || c == '\n' || c == '\r' || c == '\x0b' || c == '\x0c'

/-- Drop leading whitespace. -/
def trimLeft (l : JStr) : JStr := l.dropWhile isJsSpace

/-- Drop trailing whitespace. -/
def trimRight (l : JStr) : JStr := (l.reverse.dropWhile isJsSpace).reverse

/-- Model of `String.prototype.trim`. -/
def jsTrim (l : JStr) : JStr := trimRight (trimLeft l)

/-- Model of `.trim()` on Lean `String` values. -/
def jsTrimStr (s : String) : String := String.mk (jsTrim s.data)

/-- Model of `String.prototype.slice(begin)`: a negative index counts from
the end of the string. -/
def jsSliceFrom (l : JStr) (i : Int) : JStr :=
  if 0 ≤ i then l.drop i.toNat else l.drop (l.length - i.natAbs)

/-! ## Numeric helpers shared by workflow.ts and shipment.ts -/

/-- Model of `clamp(value, min, max) = Math.max(min, Math.min(max, value))`. -/
def clamp (value lo hi : ℚ) : ℚ := max lo (min hi value)

/-- Model of `roundTo(value, 4) = Math.round(value * 10^4) / 10^4`.
`Math.round x = ⌊x + 1/2⌋` (round half toward positive infinity). -/
def roundTo (value : ℚ) : ℚ := ((⌊value * 10000 + 1/2⌋ : ℤ) : ℚ) / 10000

/-! ## Data model (src/lib/types.ts) -/

/-- Chunk metadata record. -/
structure DocumentMetadata where
  document_id : String
  tenant_id : String
  document_title : String
  source_file_name : String
  uploaded_at : String
  page_number : Nat
  chunk_number : Nat
  chunk_text : JStr
deriving DecidableEq

/-- A retrieval result (ephemeral, produced per query). -/
structure SourceSnippet where
  id : String
  score : ℚ
  text : JStr
  metadata : DocumentMetadata
deriving DecidableEq

/-- Guardrail status of an answer. -/
inductive Guardrail where
  | ok
  | caution
  | not_found
deriving DecidableEq

/-- Structured output emitted by the controller model (AgentAnswerSchema). -/
structure AgentAnswer where
  answer : String
  grounded : Bool
  not_found : Bool
  cited_chunk_ids : List String
deriving DecidableEq

/-- The AskResponse record returned by the RAG workflow. -/
structure AskResponse where
  document_id : String
  document_ids : List String
  answer : String
  confidence : ℚ
  guardrail : Guardrail
  rewritten_query : String
  sources : List SourceSnippet
deriving DecidableEq

/-- Guardrail thresholds read from the environment by workflow.ts. -/
structure EnvCfg where
  guardrailMinTopScore : ℚ
  guardrailLowConfidence : ℚ
  guardrailCautionConfidence : ℚ
deriving DecidableEq

/-- Modelled from the spec: the env module itself is not among the provided
sources; the spec gives the default thresholds 0.85 / 0.4 / 0.6. -/
def defaultEnv : EnvCfg :=
  { guardrailMinTopScore := 0.85
    guardrailLowConfidence := 0.4
    guardrailCautionConfidence := 0.6 }

/-! ## Evidence pool merging (workflow.ts, mergeSources) -/

/-- One step of the `Map` loop in `mergeSources`: `byId.set` keeps the key
position of an existing entry and replaces its value only when the incoming
score is strictly greater; an unseen id is appended. -/
def insertSnippet (acc : List SourceSnippet) (s : SourceSnippet) : List SourceSnippet :=
  if acc.any (fun c => c.id == s.id) then
    acc.map (fun c => if c.id == s.id then (if c.score < s.score then s else c) else c)
  else
    acc ++ [s]

/-- The keep-max-score deduplication of `mergeSources` over
`[...existing, ...incoming]`. -/
def combineById (l : List SourceSnippet) : List SourceSnippet :=
  l.foldl insertSnippet []

/-- Descending-score order used by `sort((a, b) => b.score - a.score)`. -/
def scoreGE (a b : SourceSnippet) : Prop := b.score ≤ a.score

instance : DecidableRel scoreGE :=
  fun a b => inferInstanceAs (Decidable (b.score ≤ a.score))

instance : IsTotal SourceSnippet scoreGE :=
  ⟨fun a b => le_total b.score a.score⟩

instance : IsTrans SourceSnippet scoreGE :=
  ⟨fun _ _ _ hab hbc => le_trans hbc hab⟩

/-- Model of `mergeSources(existing, incoming, limit)`. -/
def mergeSources (existing incoming : List SourceSnippet) (limit : Nat) : List SourceSnippet :=
  (List.insertionSort scoreGE (combineById (existing ++ incoming))).take limit

/-- The evidence pool after a sequence of retrieval tool calls: each call
merges its results into the accumulated pool with
`mergeSources(gatheredSources, sources, MAX_SOURCES_IN_STATE)` where
`MAX_SOURCES_IN_STATE = 16`. -/
def poolHistory (incs : List (List SourceSnippet)) : List SourceSnippet :=
  incs.foldl (fun pool incoming => mergeSources pool incoming 16) []

/-- All scores observed for a given snippet id in a list of snippets. -/
def scoresOf (i : String) (l : List SourceSnippet) : List ℚ :=
  (l.filter (fun s => s.id == i)).map (fun s => s.score)

/-- The invariant of the `Map` accumulation inside `mergeSources`: distinct
ids, each entry holding the maximum score observed for its id in the
processed input, and every processed id present. -/
def IdMax (input acc : List SourceSnippet) : Prop :=
  ((acc.map (fun s => s.id)).Nodup) ∧
  (∀ e ∈ acc, e.score ∈ scoresOf e.id input ∧ ∀ q ∈ scoresOf e.id input, q ≤ e.score) ∧
  (∀ s ∈ input, s.id ∈ acc.map (fun x => x.id))

/-- The evidence pool invariant over a whole merge history: distinct ids,
size within the cap, every entry holding the maximum score ever observed
for its id, and every observation whose id is absent from the pool
dominated by every pool entry, the pool being full. -/
def PoolInv (limit : Nat) (obs pool : List SourceSnippet) : Prop :=
  ((pool.map (fun s => s.id)).Nodup) ∧
  pool.length ≤ limit ∧
  (∀ e ∈ pool, e.score ∈ scoresOf e.id obs ∧ ∀ q ∈ scoresOf e.id obs, q ≤ e.score) ∧
  (∀ s ∈ obs, s.id ∉ pool.map (fun x => x.id) →
    pool.length = limit ∧ ∀ e ∈ pool, s.score ≤ e.score)

/-! ## Answer confidence (workflow.ts, calculateConfidence) -/

/-- `sources[0]?.score ?? 0`. -/
def topScoreOf (sources : List SourceSnippet) : ℚ :=
  ((sources.head?).map (fun s => s.score)).getD 0

/-- The retrieval strength signal `clamp(topScore / 2.5, 0, 1)`. -/
def retrievalSignalOf (topScore : ℚ) : ℚ := clamp (topScore / 2.5) 0 1

/-- The weighted rounded combination
`roundTo(0.6 * retrievalSignal + 0.25 * agreementSignal + 0.15 * citationSignal)`. -/
def confidenceCombine (retrievalSignal agreementSignal citationSignal : ℚ) : ℚ :=
  roundTo (0.6 * retrievalSignal + 0.25 * agreementSignal + 0.15 * citationSignal)

/-- Model of `calculateConfidence({sources, citedChunkIds})`. -/
def calculateConfidence (sources : List SourceSnippet) (citedChunkIds : List String) : ℚ :=
  let topScore := topScoreOf sources
  let secondScore := ((sources[1]?).map (fun s => s.score)).getD topScore
  let agreementSignal := if 0 < topScore then clamp (secondScore / topScore) 0 1 else 0
  let sourceIds := sources.map (fun s => s.id)
  let validCitations := (citedChunkIds.filter (fun i => sourceIds.contains i)).length
  let citationSignal :=
    if 0 < citedChunkIds.length then
      clamp ((validCitations : ℚ) / (citedChunkIds.length : ℚ)) 0 1
    else 0
  confidenceCombine (retrievalSignalOf topScore) agreementSignal citationSignal

instance : DecidableRel (fun a b : ℚ => b ≤ a) :=
  fun a b => inferInstanceAs (Decidable (b ≤ a))

/-- The confidence formula written from the words of the specification
(for comparison with `calculateConfidence`): `topScore` and `secondScore`
are the top two pool scores, `secondScore` defaulting to `topScore` when
only one exists; the citation signal is the fraction of claimed citation
ids present in the pool. -/
def specAnswerConfidence (pool : List SourceSnippet) (citedChunkIds : List String) : ℚ :=
  let sortedScores := List.insertionSort (fun a b : ℚ => b ≤ a) (pool.map (fun s => s.score))
  let topScore := (sortedScores.head?).getD 0
  let secondScore := (sortedScores[1]?).getD topScore
  let retrievalSignal := clamp (topScore / 2.5) 0 1
  let agreementSignal := if 0 < topScore then clamp (secondScore / topScore) 0 1 else 0
  let citationSignal :=
    if 0 < citedChunkIds.length then
      ((citedChunkIds.countP (fun i => decide (i ∈ pool.map (fun s => s.id)))) : ℚ) /
        (citedChunkIds.length : ℚ)
    else 0
  roundTo (0.6 * retrievalSignal + 0.25 * agreementSignal + 0.15 * citationSignal)

/-! ## Guardrail finalization (workflow.ts, end of runRagWorkflow) -/

/-- The abstention sentinel answer. -/
def sentinelAnswer : String := "Not found in document."

/-- The caution suffix appended to moderate-confidence answers. -/
def cautionNotice : String := "\n\nCaution: This answer has moderate confidence."

/-- The fallback used when the agent produced no structured response. -/
def fallbackAgentAnswer : AgentAnswer :=
  { answer := sentinelAnswer, grounded := false, not_found := true, cited_chunk_ids := [] }

/-- Model of the tail of `runRagWorkflow`: the retrieval-floor gate, the
grounding gate, and the confidence policy, producing the AskResponse.
The structured-response fallback is pure, so binding it inside the branch
that reads it is observationally identical to the source order. -/
def finalizeRag (cfg : EnvCfg) (documentIds : List String) (rewrittenQuery : String)
    (gatheredSources : List SourceSnippet) (structuredResponse : Option AgentAnswer) :
    AskResponse :=
  if gatheredSources.length = 0 ∨ topScoreOf gatheredSources < cfg.guardrailMinTopScore then
    { document_id := (documentIds.head?).getD ""
      document_ids := documentIds
      answer := sentinelAnswer
      confidence := 0
      guardrail := Guardrail.not_found
      rewritten_query := rewrittenQuery
      sources := gatheredSources }
  else
    let structured := structuredResponse.getD fallbackAgentAnswer
    let confidence := calculateConfidence gatheredSources structured.cited_chunk_ids
    if structured.not_found || !structured.grounded then
      { document_id := (documentIds.head?).getD ""
        document_ids := documentIds
        answer := sentinelAnswer
        confidence := roundTo (min confidence 0.35)
        guardrail := Guardrail.not_found
        rewritten_query := rewrittenQuery
        sources := gatheredSources }
    else if confidence < cfg.guardrailLowConfidence then
      { document_id := (documentIds.head?).getD ""
        document_ids := documentIds
        answer := sentinelAnswer
        confidence := roundTo confidence
        guardrail := Guardrail.not_found
        rewritten_query := rewrittenQuery
        sources := gatheredSources }
    else if confidence < cfg.guardrailCautionConfidence then
      { document_id := (documentIds.head?).getD ""
        document_ids := documentIds
        answer := jsTrimStr structured.answer ++ cautionNotice
        confidence := roundTo confidence
        guardrail := Guardrail.caution
        rewritten_query := rewrittenQuery
        sources := gatheredSources }
    else
      { document_id := (documentIds.head?).getD ""
        document_ids := documentIds
        answer := jsTrimStr structured.answer
        confidence := roundTo confidence
        guardrail := Guardrail.ok
        rewritten_query := rewrittenQuery
        sources := gatheredSources }

/-! ## Chunking (src/lib/chunking.ts) -/

/-- The two-character blank-line separator used to join paragraphs. -/
def sepNL : JStr := ['\n', '\n']

/-- The seed of the buffer after a flush:
`overlapText = current.slice(max(0, len - overlap)).trim()`, then
`overlapText ? overlapText + sep + paragraph : paragraph`. -/
def chunkSeed (overlapChars : Nat) (current paragraph : JStr) : JStr :=
  let overlapText := jsTrim (current.drop (current.length - overlapChars))
  if overlapText.isEmpty then paragraph else overlapText ++ sepNL ++ paragraph

/-- One iteration of the paragraph loop of `buildOverlappingChunks`:
the state is the pair (emitted chunks, current buffer). -/
def chunkStep (targetChars overlapChars : Nat) (st : List JStr × JStr) (paragraph : JStr) :
    List JStr × JStr :=
  let chunks := st.1
  let current := st.2
  if current.length = 0 then
    (chunks, paragraph)
  else
    let candidate := current ++ sepNL ++ paragraph
    if candidate.length ≤ targetChars then
      (chunks, candidate)
    else
      let flushed := chunks ++ [current]
      let seeded := chunkSeed overlapChars current paragraph
      if 3 * targetChars < 2 * seeded.length then
        (flushed ++ [seeded.take targetChars],
         jsTrim (jsSliceFrom seeded ((targetChars : Int) - (overlapChars : Int))))
      else
        (flushed, seeded)

/-- Model of `buildOverlappingChunks(paragraphs, targetChars, overlapChars)`. -/
def buildOverlappingChunks (paragraphs : List JStr) (targetChars overlapChars : Nat) :
    List JStr :=
  if paragraphs.isEmpty then []
  else
    let final := paragraphs.foldl (chunkStep targetChars overlapChars) ([], [])
    if final.2.length = 0 then final.1 else final.1 ++ [final.2]

/-- Model of `input.replace(/\r\n/g, "\n")`. -/
def replaceCRLF : JStr → JStr
  | [] => []
  | '\r' :: '\n' :: rest => '\n' :: replaceCRLF rest
  | c :: rest => c :: replaceCRLF rest

/-- Model of `part.replace(/\s+/g, " ")`: every maximal whitespace run
becomes a single space. -/
def collapseWs : JStr → JStr
  | [] => []
  | c :: rest =>
    if isJsSpace c then ' ' :: collapseWs (rest.dropWhile isJsSpace)
    else c :: collapseWs rest
termination_by l => l.length
decreasing_by
  · have h : (rest.dropWhile isJsSpace).length ≤ rest.length :=
      List.Sublist.length_le (List.dropWhile_sublist isJsSpace)
    simp only [List.length_cons]
    omega
  · simp only [List.length_cons]
    omega

/-- Model of `normalized.split(/\n{2,}/)`: a maximal run of two or more
newlines separates parts. -/
def splitOnBlank : JStr → List JStr
  | [] => [[]]
  | '\n' :: '\n' :: rest =>
    [] :: splitOnBlank (rest.dropWhile (fun c => c == '\n'))
  | c :: rest =>
    match splitOnBlank rest with
    | [] => [[c]]
    | h :: t => (c :: h) :: t
termination_by l => l.length
decreasing_by
  · have h : (rest.dropWhile (fun c => c == '\n')).length ≤ rest.length :=
      List.Sublist.length_le (List.dropWhile_sublist (fun c => c == '\n'))
    simp only [List.length_cons]
    omega
  · simp only [List.length_cons]
    omega

/-- Model of `splitIntoParagraphs(input)`. -/
def splitIntoParagraphs (input : JStr) : List JStr :=
  let normalized := jsTrim (replaceCRLF input)
  if normalized.isEmpty then []
  else
    ((splitOnBlank normalized).map (fun part => jsTrim (collapseWs part))).filter
      (fun p => !p.isEmpty)

/-- A chunk record produced at upload time. -/
structure ChunkRecord where
  id : String
  text : JStr
  metadata : DocumentMetadata
deriving DecidableEq

/-- Model of `createChunksFromPages`: chunks each page independently and
assigns a document-global `chunk_number` starting at 1. -/
def createChunksFromPages (documentId tenantId fileName uploadedAt : String)
    (pageTexts : List (Nat × JStr)) (targetChars overlapChars : Nat) : List ChunkRecord :=
  (pageTexts.foldl
    (fun (acc : List ChunkRecord × Nat) page =>
      let paragraphs := splitIntoParagraphs page.2
      let pageChunks := buildOverlappingChunks paragraphs targetChars overlapChars
      (acc.1 ++ pageChunks.enum.map (fun pc =>
        { id := documentId ++ "#p" ++ toString page.1 ++ "c" ++ toString (pc.1 + 1)
          text := pc.2
          metadata :=
            { document_id := documentId
              tenant_id := tenantId
              document_title := fileName
              source_file_name := fileName
              uploaded_at := uploadedAt
              page_number := page.1
              chunk_number := acc.2 + pc.1
              chunk_text := pc.2 } }),
       acc.2 + pageChunks.length))
    ([], 1)).1

/-! ## Structured extraction (src/lib/extraction/shipment.ts) -/

/-- The 11 nullable fields of a shipment extraction. -/
structure ShipmentExtraction where
  shipment_id : Option String
  shipper : Option String
  consignee : Option String
  pickup_datetime : Option String
  delivery_datetime : Option String
  equipment_type : Option String
  mode : Option String
  rate : Option ℚ
  currency : Option String
  weight : Option ℚ
  carrier_name : Option String
deriving DecidableEq

/-- The raw model output validated by ExtractionSchema: strings are
nullable, `rate` and `weight` accept either a number or a string. -/
structure RawShipmentOutput where
  shipment_id : Option String
  shipper : Option String
  consignee : Option String
  pickup_datetime : Option String
  delivery_datetime : Option String
  equipment_type : Option String
  mode : Option String
  rate : Option (ℚ ⊕ String)
  currency : Option String
  weight : Option (ℚ ⊕ String)
  carrier_name : Option String
  self_assessed_confidence : ℚ
deriving DecidableEq

/-- Model of `toNullableString`: null stays null, a string is trimmed and
an empty result becomes null. -/
def toNullableString (value : Option String) : Option String :=
  match value with
  | none => none
  | some s =>
    let trimmed := jsTrimStr s
    if trimmed.isEmpty then none else some trimmed

/-- Decimal value of a digit run (the digits of a JavaScript float literal). -/
def digitsVal (l : JStr) : Nat :=
  l.foldl (fun a c => a * 10 + (c.toNat - 48)) 0

/-- Model of `Number.parseFloat` on strings containing only digits, dots
and minus signs (the alphabet left by the cleaning step): parses a leading
optional sign, an integer part and an optional fraction, ignoring trailing
junk; yields none when no digit is found (NaN). -/
def jsParseFloat (l : JStr) : Option ℚ :=
  let signRest : ℚ × JStr :=
    match l with
    | '-' :: r => (-1, r)
    | '+' :: r => (1, r)
    | r => (1, r)
  let intDigits := signRest.2.takeWhile Char.isDigit
  let rest2 := signRest.2.drop intDigits.length
  match rest2 with
  | '.' :: r2 =>
    let fracDigits := r2.takeWhile Char.isDigit
    if intDigits.isEmpty && fracDigits.isEmpty then none
    else
      some (signRest.1 *
        ((digitsVal intDigits : ℚ) + (digitsVal fracDigits : ℚ) / 10 ^ fracDigits.length))
  | _ => if intDigits.isEmpty then none else some (signRest.1 * (digitsVal intDigits : ℚ))

/-- Model of `toNullableNumber`: a number is kept; a string is stripped of
every character except digits, dots and minus signs, then parsed as a
float, yielding null when empty or unparseable. -/
def toNullableNumber (value : Option (ℚ ⊕ String)) : Option ℚ :=
  match value with
  | some (Sum.inl n) => some n
  | some (Sum.inr s) =>
    let cleaned := jsTrim (s.data.filter (fun c => c.isDigit || c == '.' || c == '-'))
    if cleaned.isEmpty then none else jsParseFloat cleaned
  | none => none

/-- The presence flags of `Object.values(extraction)` in declaration order. -/
def shipmentFieldPresence (e : ShipmentExtraction) : List Bool :=
  [e.shipment_id.isSome, e.shipper.isSome, e.consignee.isSome, e.pickup_datetime.isSome,
   e.delivery_datetime.isSome, e.equipment_type.isSome, e.mode.isSome, e.rate.isSome,
   e.currency.isSome, e.weight.isSome, e.carrier_name.isSome]

/-- Model of `computeExtractionConfidence(extraction, modelConfidence)`. -/
def computeExtractionConfidence (extraction : ShipmentExtraction) (modelConfidence : ℚ) : ℚ :=
  let present := ((shipmentFieldPresence extraction).filter (fun b => b)).length
  let completeness := (present : ℚ) / ((shipmentFieldPresence extraction).length : ℚ)
  roundTo (0.65 * modelConfidence + 0.35 * completeness)

/-- The field normalization performed by `extractShipmentData` on the raw
model output. -/
def normalizeShipmentOutput (output : RawShipmentOutput) : ShipmentExtraction :=
  { shipment_id := toNullableString output.shipment_id
    shipper := toNullableString output.shipper
    consignee := toNullableString output.consignee
    pickup_datetime := toNullableString output.pickup_datetime
    delivery_datetime := toNullableString output.delivery_datetime
    equipment_type := toNullableString output.equipment_type
    mode := toNullableString output.mode
    rate := toNullableNumber output.rate
    currency := toNullableString output.currency
    weight := toNullableNumber output.weight
    carrier_name := toNullableString output.carrier_name }

/-- The pure tail of `extractShipmentData`: the normalized extraction and
its confidence, computed on the normalized record. -/
def extractShipmentResult (output : RawShipmentOutput) : ShipmentExtraction × ℚ :=
  let extraction := normalizeShipmentOutput output
  (extraction, computeExtractionConfidence extraction output.self_assessed_confidence)

/-- The all-null extraction record. -/
def emptyShipmentExtraction : ShipmentExtraction :=
  { shipment_id := none, shipper := none, consignee := none, pickup_datetime := none
    delivery_datetime := none, equipment_type := none, mode := none, rate := none
    currency := none, weight := none, carrier_name := none }

/-- A string-typed extraction field is either null or a non-empty trimmed
string. -/
def NormalizedStringField (v : Option String) : Prop :=
  v = none ∨ ∃ s, v = some s ∧ jsTrimStr s = s ∧ s ≠ ""

/-! ## Services (src/lib/services/doc-intelligence.ts) -/

/-- A registry entry for an uploaded document. -/
structure RegistryItem where
  documentId : String
  fileName : String
  uploadedAt : String
  nspace : String
  tenantId : String
  chunkCount : Nat
deriving DecidableEq

/-- The DocIntelligenceError carrying a message and an HTTP status. -/
structure DocIntelligenceError where
  message : String
  status : Nat
deriving DecidableEq

/-- The resolved scope of an ask request. -/
structure AskScope where
  nspace : String
  tenantId : String
  documentIds : List String
deriving DecidableEq

/-- Model of `[...new Set(rawIds)]`: deduplication keeping first
occurrences in order. -/
def uniqueInOrder (l : List String) : List String :=
  l.foldl (fun acc x => if x ∈ acc then acc else acc ++ [x]) []

/-- The error message of the namespace-consistency rejection. -/
def inconsistentScopeMessage : String :=
  "Selected documents belong to different namespaces. Please select documents from the same tenant."

/-- Model of `resolveDocumentContext(documentId?)`; the registry is a
function parameter and `getLatestDocumentId` an optional value. The source
message wraps the document id in single quotes, omitted here. -/
def resolveDocumentContext (getItem : String → Option RegistryItem) (latest : Option String)
    (documentId : Option String) : Except DocIntelligenceError (String × String × String) :=
  match documentId <|> latest with
  | none => .error { message := "No uploaded document found. Upload a document first.", status := 404 }
  | some selectedId =>
    match getItem selectedId with
    | none => .error { message := "Document " ++ selectedId ++ " was not found.", status := 404 }
    | some item => .ok (selectedId, item.nspace, item.tenantId)

/-- Model of `resolveAskContext({documentId?, documentIds?})`. The branch
for an empty resolved list is unreachable (uniqueIds is non-empty and no id
is missing there); the source would fault on it. -/
def resolveAskContext (getItem : String → Option RegistryItem) (latest : Option String)
    (documentId : Option String) (documentIds : Option (List String)) :
    Except DocIntelligenceError AskScope :=
  let rawIds := ((documentIds.getD []).map jsTrimStr).filter (fun i => !i.isEmpty)
  if 0 < rawIds.length then
    let uniqueIds := uniqueInOrder rawIds
    let missingIds := uniqueIds.filter (fun i => (getItem i).isNone)
    if 0 < missingIds.length then
      .error { message := "Document(s) not found: " ++ String.intercalate ", " missingIds
               status := 404 }
    else
      let resolved := uniqueIds.filterMap getItem
      match resolved with
      | [] => .error { message := "No registry items resolved.", status := 500 }
      | first :: _ =>
        if resolved.all (fun item => item.nspace == first.nspace) then
          .ok { nspace := first.nspace, tenantId := first.tenantId, documentIds := uniqueIds }
        else
          .error { message := inconsistentScopeMessage, status := 400 }
  else
    match resolveDocumentContext getItem latest documentId with
    | .error e => .error e
    | .ok ctx => .ok { nspace := ctx.2.1, tenantId := ctx.2.2, documentIds := [ctx.1] }

/-- The ids an ask request resolves after trimming, dropping empties and
deduplicating (the `uniqueIds` of `resolveAskContext`). -/
def cleanedIdsOf (documentIds : List String) : List String :=
  uniqueInOrder ((documentIds.map jsTrimStr).filter (fun i => !i.isEmpty))

/-- Model of `askDocumentQuestion`: trims the question, resolves the scope,
and only then invokes the RAG workflow. The workflow (and hence every
hybrid retrieval query) is abstracted by the `runRag` parameter, applied
only on the success path of scope resolution. -/
def askDocumentQuestion (getItem : String → Option RegistryItem) (latest : Option String)
    (runRag : String → String → List String → AskResponse) (question : String)
    (documentId : Option String) (documentIds : Option (List String)) :
    Except DocIntelligenceError AskResponse :=
  let q := jsTrimStr question
  if q.isEmpty then .error { message := "Question cannot be empty.", status := 400 }
  else
    match resolveAskContext getItem latest documentId documentIds with
    | .error e => .error e
    | .ok ctx => .ok (runRag q ctx.nspace ctx.documentIds)

/-! ## Upload (src/lib/services/doc-intelligence.ts, uploadDocument) -/

/-- The UploadResponse record. -/
structure UploadResponse where
  document_id : String
  file_name : String
  chunk_count : Nat
  nspace : String
  uploaded_at : String
deriving DecidableEq

/-- The payload returned by parsing (an external collaborator). -/
structure ParsedDocumentPayload where
  documentId : String
  tenantId : String
  fileName : String
  uploadedAt : String
  textFull : JStr
  markdownFull : JStr
  pageTexts : List (Nat × JStr)
deriving DecidableEq

/-- The externally observable side effects of an upload, in order. -/
inductive UploadEvent where
  | upsertChunks (chunks : List ChunkRecord) (nspace : String)
  | saveRegistry (item : RegistryItem)
deriving DecidableEq

/-- Model of `getExtension(fileName)`. -/
def getExtension (fileName : String) : String :=
  ((fileName.splitOn ".").getLast?.getD "").toLower

/-- The supported upload file types. -/
def supportedFileTypes : List String := ["pdf", "docx", "txt"]

/-- Model of `params.tenantId?.trim() || DEFAULT_TENANT`. -/
def uploadTenantOf (tenantId : Option String) : String :=
  let t := jsTrimStr (tenantId.getD "")
  if t.isEmpty then "tenant-demo" else t

/-- The page texts actually chunked: the parsed pages, or the single-page
fallback built from the markdown or raw text. -/
def uploadPageTextsOf (parsed : ParsedDocumentPayload) : List (Nat × JStr) :=
  let fallbackText := if parsed.markdownFull.isEmpty then parsed.textFull else parsed.markdownFull
  if 0 < parsed.pageTexts.length then parsed.pageTexts
  else [(1, if fallbackText.isEmpty then ("(empty document)").data else fallbackText)]

/-- The chunks produced by an upload (default target 1200, overlap 180). -/
def uploadChunksOf (fileName : String) (tenantId : Option String)
    (documentId uploadedAt : String) (parsed : ParsedDocumentPayload) : List ChunkRecord :=
  createChunksFromPages documentId (uploadTenantOf tenantId) fileName uploadedAt
    (uploadPageTextsOf parsed) 1200 180

/-- Model of `uploadDocument`: validates the file type, chunks the parsed
pages, and on success upserts all chunk vectors and only then saves the
registry entry. The event list records the external writes in program
order; failures produce no events. -/
def uploadDocumentModel (basePrefix fileName : String) (tenantId : Option String)
    (documentId uploadedAt : String) (parsed : ParsedDocumentPayload) :
    List UploadEvent × Except DocIntelligenceError UploadResponse :=
  let tenant := uploadTenantOf tenantId
  let extension := getExtension fileName
  if !(supportedFileTypes.contains extension) then
    ([], .error { message := "Unsupported file type " ++ extension ++ ". Supported: pdf, docx, txt."
                  status := 400 })
  else
    let chunks := uploadChunksOf fileName tenantId documentId uploadedAt parsed
    if chunks.length = 0 then
      ([], .error { message := "Could not extract usable text from this document.", status := 422 })
    else
      let nspace := basePrefix ++ ":" ++ tenant
      ([UploadEvent.upsertChunks chunks nspace,
        UploadEvent.saveRegistry
          { documentId := documentId, fileName := fileName, uploadedAt := uploadedAt
            nspace := nspace, tenantId := tenant, chunkCount := chunks.length }],
       .ok { document_id := documentId, file_name := fileName, chunk_count := chunks.length
             nspace := nspace, uploaded_at := uploadedAt })

/-! ## Sample inputs used by witnesses -/

/-- Sample chunk metadata. -/
def sampleMeta : DocumentMetadata :=
  { document_id := "doc-1", tenant_id := "tenant-demo", document_title := "a.txt"
    source_file_name := "a.txt", uploaded_at := "t0", page_number := 1, chunk_number := 1
    chunk_text := [] }

/-- A snippet with a given id and score. -/
def mkSnippet (i : String) (q : ℚ) : SourceSnippet :=
  { id := i, score := q, text := [], metadata := sampleMeta }

/-- A registry item in the namespace of tenant A. -/
def sampleItemA : RegistryItem :=
  { documentId := "d1", fileName := "a.pdf", uploadedAt := "t1", nspace := "base:tenantA"
    tenantId := "tenantA", chunkCount := 3 }

/-- A registry item in the namespace of tenant B. -/
def sampleItemB : RegistryItem :=
  { documentId := "d2", fileName := "b.pdf", uploadedAt := "t2", nspace := "base:tenantB"
    tenantId := "tenantB", chunkCount := 5 }

/-- A second registry item in the namespace of tenant A. -/
def sampleItemA2 : RegistryItem :=
  { documentId := "d3", fileName := "c.pdf", uploadedAt := "t3", nspace := "base:tenantA"
    tenantId := "tenantA", chunkCount := 2 }

/-- A registry holding documents d1 and d2 in different namespaces and d3
in the namespace of d1. -/
def sampleRegistry : String → Option RegistryItem :=
  fun i =>
    if i == "d1" then some sampleItemA
    else if i == "d2" then some sampleItemB
    else if i == "d3" then some sampleItemA2
    else none

/-- A parsed payload with one page of plain text. -/
def sampleParsed : ParsedDocumentPayload :=
  { documentId := "doc-1", tenantId := "tenant-demo", fileName := "a.txt", uploadedAt := "t0"
    textFull := ("Hello world").data, markdownFull := ("Hello world").data
    pageTexts := [(1, ("Hello world").data)] }

/-- A parsed payload whose single page is whitespace only, producing zero
chunks. -/
def sampleParsedEmpty : ParsedDocumentPayload :=
  { documentId := "doc-1", tenantId := "tenant-demo", fileName := "a.txt", uploadedAt := "t0"
    textFull := ("   ").data, markdownFull := ("   ").data
    pageTexts := [(1, ("   ").data)] }

/-- A sample agent answer that is not grounded. -/
def sampleUngrounded : AgentAnswer :=
  { answer := "An answer.", grounded := false, not_found := false, cited_chunk_ids := ["c1"] }

/-! # Theorems -/

/-! ## Rounding helper lemmas -/

theorem roundTo_mono {x y : ℚ} (h : x ≤ y) : roundTo x ≤ roundTo y := by
  unfold roundTo
  have hf : (⌊x * 10000 + 1/2⌋ : ℤ) ≤ ⌊y * 10000 + 1/2⌋ :=
    Int.floor_le_floor (by linarith)
  have hc : ((⌊x * 10000 + 1/2⌋ : ℤ) : ℚ) ≤ ((⌊y * 10000 + 1/2⌋ : ℤ) : ℚ) := by
    exact_mod_cast hf
  linarith

theorem roundTo_intCast_div (m : ℤ) : roundTo ((m : ℚ) / 10000) = (m : ℚ) / 10000 := by
  unfold roundTo
  have h1 : (m : ℚ) / 10000 * 10000 = (m : ℚ) := by field_simp
  rw [h1, Int.floor_int_add]
  norm_num

theorem roundTo_roundTo (x : ℚ) : roundTo (roundTo x) = roundTo x :=
  roundTo_intCast_div ⌊x * 10000 + 1/2⌋

theorem roundTo_point35 : roundTo (0.35 : ℚ) = 0.35 := by
  have h : (0.35 : ℚ) = ((3500 : ℤ) : ℚ) / 10000 := by norm_num
  rw [h, roundTo_intCast_div]

theorem roundTo_min_cap (x : ℚ) :
    roundTo (min (roundTo x) 0.35) = min (roundTo x) 0.35 := by
  rcases le_total (roundTo x) (0.35 : ℚ) with h | h
  · rw [min_eq_left h, roundTo_roundTo]
  · rw [min_eq_right h, roundTo_point35]

/-! ## C1: the retrieval floor gate -/

/-- C1: for every ask request, if the evidence pool is empty after the agent
finishes, or every pool score (hence the highest) is strictly below
`guardrailMinTopScore`, the returned AskResponse is the sentinel record with
confidence 0 and guardrail `not_found`, whatever the controller emitted. -/
theorem guardrail_retrieval_floor (cfg : EnvCfg) (documentIds : List String)
    (rewrittenQuery : String) (sources : List SourceSnippet)
    (structuredResponse : Option AgentAnswer)
    (h : sources = [] ∨ ∀ s ∈ sources, s.score < cfg.guardrailMinTopScore) :
    finalizeRag cfg documentIds rewrittenQuery sources structuredResponse =
      { document_id := (documentIds.head?).getD ""
        document_ids := documentIds
        answer := sentinelAnswer
        confidence := 0
        guardrail := Guardrail.not_found
        rewritten_query := rewrittenQuery
        sources := sources } := by
  have hcond : sources.length = 0 ∨ topScoreOf sources < cfg.guardrailMinTopScore := by
    rcases h with h | h
    · exact Or.inl (by simp [h])
    · cases sources with
      | nil => exact Or.inl rfl
      | cons a t =>
        exact Or.inr (by simpa [topScoreOf] using h a (List.mem_cons_self a t))
  unfold finalizeRag
  rw [if_pos hcond]

/-- Witness for C1 at a concrete single-snippet pool scoring below 0.85. -/
theorem guardrail_retrieval_floor_witness :
    ([mkSnippet ("c1") 0.5] = ([] : List SourceSnippet) ∨
      ∀ s ∈ [mkSnippet ("c1") 0.5], s.score < defaultEnv.guardrailMinTopScore) ∧
    finalizeRag defaultEnv ["doc-1"] ("q") [mkSnippet ("c1") 0.5] none =
      { document_id := "doc-1"
        document_ids := ["doc-1"]
        answer := sentinelAnswer
        confidence := 0
        guardrail := Guardrail.not_found
        rewritten_query := "q"
        sources := [mkSnippet ("c1") 0.5] } :=
  ⟨Or.inr (by norm_num [List.forall_mem_singleton, mkSnippet, defaultEnv]),
   guardrail_retrieval_floor defaultEnv ["doc-1"] ("q") [mkSnippet ("c1") 0.5] none
     (Or.inr (by norm_num [List.forall_mem_singleton, mkSnippet, defaultEnv]))⟩

/-! ## C3: the grounding gate caps confidence -/

/-- C3: when the retrieval floor passes but the controller emits
`not_found = true` or `grounded = false`, the result carries guardrail
`not_found`, the sentinel answer, and confidence
`min(computed confidence, 0.35)`, with no condition on how large the
computed confidence is. -/
theorem guardrail_grounding_cap (cfg : EnvCfg) (documentIds : List String)
    (rewrittenQuery : String) (sources : List SourceSnippet) (structured : AgentAnswer)
    (hne : sources ≠ []) (hgate : cfg.guardrailMinTopScore ≤ topScoreOf sources)
    (hng : structured.not_found = true ∨ structured.grounded = false) :
    (finalizeRag cfg documentIds rewrittenQuery sources (some structured)).guardrail =
        Guardrail.not_found ∧
    (finalizeRag cfg documentIds rewrittenQuery sources (some structured)).answer =
        sentinelAnswer ∧
    (finalizeRag cfg documentIds rewrittenQuery sources (some structured)).confidence =
        min (calculateConfidence sources structured.cited_chunk_ids) 0.35 := by
  have hcond : ¬ (sources.length = 0 ∨ topScoreOf sources < cfg.guardrailMinTopScore) := by
    rintro (h0 | hlt)
    · exact hne (List.length_eq_zero.mp h0)
    · exact absurd hgate (not_le.mpr hlt)
  have hflag : (structured.not_found || !structured.grounded) = true := by
    rcases hng with h | h <;> simp [h]
  unfold finalizeRag
  rw [if_neg hcond]
  refine ⟨?_, ?_, ?_⟩ <;>
    simp only [Option.getD_some, hflag, eq_self_iff_true, if_true, ite_true]
  exact roundTo_min_cap _

/-- Witness for C3: a high-scoring pool with an ungrounded controller answer. -/
theorem guardrail_grounding_cap_witness :
    ([mkSnippet ("c1") 2.4] ≠ ([] : List SourceSnippet)) ∧
    (defaultEnv.guardrailMinTopScore ≤ topScoreOf [mkSnippet ("c1") 2.4]) ∧
    (finalizeRag defaultEnv ["doc-1"] ("q") [mkSnippet ("c1") 2.4]
        (some sampleUngrounded)).confidence =
      min (calculateConfidence [mkSnippet ("c1") 2.4] sampleUngrounded.cited_chunk_ids) 0.35 :=
  ⟨by simp, by norm_num [topScoreOf, mkSnippet, defaultEnv],
   (guardrail_grounding_cap defaultEnv ["doc-1"] ("q") [mkSnippet ("c1") 2.4]
      sampleUngrounded (by simp) (by norm_num [topScoreOf, mkSnippet, defaultEnv])
      (Or.inr rfl)).2.2⟩

/-! ## C6: confidence is monotone in the top score -/

/-- C6: with the agreement and citation signals held fixed, the combined
rounded confidence is non-decreasing in the top score on [0, 2.5]. -/
theorem confidence_monotone_in_top_score (agreementSignal citationSignal s₁ s₂ : ℚ)
    (h0 : 0 ≤ s₁) (h12 : s₁ ≤ s₂) (h25 : s₂ ≤ 2.5) :
    confidenceCombine (retrievalSignalOf s₁) agreementSignal citationSignal ≤
      confidenceCombine (retrievalSignalOf s₂) agreementSignal citationSignal := by
  have hdiv : s₁ / 2.5 ≤ s₂ / 2.5 := by gcongr
  have hr : retrievalSignalOf s₁ ≤ retrievalSignalOf s₂ := by
    unfold retrievalSignalOf clamp
    exact max_le_max le_rfl (min_le_min le_rfl hdiv)
  unfold confidenceCombine
  apply roundTo_mono
  linarith

/-- Witness for C6 at top scores 1 and 2. -/
theorem confidence_monotone_in_top_score_witness :
    confidenceCombine (retrievalSignalOf 1) 0 0 ≤ confidenceCombine (retrievalSignalOf 2) 0 0 :=
  confidence_monotone_in_top_score 0 0 1 2 (by norm_num) (by norm_num) (by norm_num)

/-! ## C8: the extraction confidence formula -/

/-- C8: the extraction confidence is
`roundTo(0.65 * modelConfidence + 0.35 * (nonNullCount / 11))` for every
extraction and every model confidence in [0, 1]; with all 11 fields null
and model confidence 1 it is exactly 0.65. -/
theorem extraction_confidence_formula (e : ShipmentExtraction) (m : ℚ)
    (h0 : 0 ≤ m) (h1 : m ≤ 1) :
    computeExtractionConfidence e m =
      roundTo (0.65 * m +
        0.35 * ((((shipmentFieldPresence e).filter (fun b => b)).length : ℚ) / 11)) ∧
    computeExtractionConfidence emptyShipmentExtraction 1 = 0.65 := by
  constructor
  · rfl
  · have h1 : computeExtractionConfidence emptyShipmentExtraction 1 =
        roundTo (0.65 * 1 + 0.35 * ((0 : ℚ) / 11)) := rfl
    have harg : (0.65 * 1 + 0.35 * ((0 : ℚ) / 11) : ℚ) = ((6500 : ℤ) : ℚ) / 10000 := by
      norm_num
    rw [h1, harg, roundTo_intCast_div]
    norm_num

/-- Witness for C8 at the all-null extraction with model confidence 1. -/
theorem extraction_confidence_formula_witness :
    computeExtractionConfidence emptyShipmentExtraction 1 =
      roundTo (0.65 * 1 +
        0.35 * ((((shipmentFieldPresence emptyShipmentExtraction).filter
            (fun b => b)).length : ℚ) / 11)) ∧
    computeExtractionConfidence emptyShipmentExtraction 1 = 0.65 :=
  extraction_confidence_formula emptyShipmentExtraction 1 (by norm_num) (by norm_num)

/-! ## C2: the answer confidence formula -/

theorem contains_eq_decide_mem (l : List String) (a : String) :
    l.contains a = decide (a ∈ l) := by
  by_cases h : a ∈ l <;> simp [h]

theorem citation_signal_eq (pool : List SourceSnippet) (cited : List String) :
    (if 0 < cited.length then
        clamp (((cited.filter (fun i => (pool.map (fun s => s.id)).contains i)).length : ℚ) /
          (cited.length : ℚ)) 0 1
      else 0) =
    (if 0 < cited.length then
        ((cited.countP (fun i => decide (i ∈ pool.map (fun s => s.id)))) : ℚ) /
          (cited.length : ℚ)
      else 0) := by
  by_cases hc : 0 < cited.length
  · rw [if_pos hc, if_pos hc]
    have hcount : (cited.filter (fun i => (pool.map (fun s => s.id)).contains i)).length
        = cited.countP (fun i => decide (i ∈ pool.map (fun s => s.id))) := by
      rw [List.countP_eq_length_filter]
      exact congrArg _ (List.filter_congr (fun i _ => contains_eq_decide_mem _ i))
    rw [hcount]
    have hlen : (0 : ℚ) < (cited.length : ℚ) := by exact_mod_cast hc
    have hle : ((cited.countP (fun i => decide (i ∈ pool.map (fun s => s.id)))) : ℚ) /
        (cited.length : ℚ) ≤ 1 := by
      rw [div_le_one hlen]
      exact_mod_cast List.countP_le_length _
    have hge : (0 : ℚ) ≤ ((cited.countP (fun i => decide (i ∈ pool.map (fun s => s.id)))) : ℚ) /
        (cited.length : ℚ) := by positivity
    unfold clamp
    rw [min_eq_right hle, max_eq_right hge]
  · rw [if_neg hc, if_neg hc]

/-- C2: on every non-empty, descending-sorted evidence pool (the shape every
pool produced by `mergeSources` has), `calculateConfidence` equals the
confidence formula as the specification words it. -/
theorem confidence_formula_spec (pool : List SourceSnippet) (citedChunkIds : List String)
    (hne : pool ≠ []) (hsorted : List.Sorted scoreGE pool) :
    calculateConfidence pool citedChunkIds = specAnswerConfidence pool citedChunkIds := by
  have hs : List.Sorted (fun a b : ℚ => b ≤ a) (pool.map (fun s => s.score)) := by
    simpa [List.Sorted, List.pairwise_map, scoreGE] using hsorted
  simp only [calculateConfidence, specAnswerConfidence, confidenceCombine, retrievalSignalOf,
    topScoreOf, List.Sorted.insertionSort_eq hs, List.head?_map, List.getElem?_map]
  rw [citation_signal_eq]

/-- Witness for C2 on a concrete two-snippet sorted pool with one citation. -/
theorem confidence_formula_spec_witness :
    ([mkSnippet ("a") 2, mkSnippet ("b") 1] ≠ ([] : List SourceSnippet)) ∧
    List.Sorted scoreGE [mkSnippet ("a") 2, mkSnippet ("b") 1] ∧
    calculateConfidence [mkSnippet ("a") 2, mkSnippet ("b") 1] ["a"] =
      specAnswerConfidence [mkSnippet ("a") 2, mkSnippet ("b") 1] ["a"] :=
  ⟨by simp,
   by simp [List.Sorted, List.pairwise_cons, scoreGE, mkSnippet],
   confidence_formula_spec [mkSnippet ("a") 2, mkSnippet ("b") 1] ["a"] (by simp)
     (by simp [List.Sorted, List.pairwise_cons, scoreGE, mkSnippet])⟩

/-! ## C5: the chunk flush boundary -/

theorem chunkStep_no_flush (targetChars overlapChars : Nat) (chunks : List JStr)
    (current paragraph : JStr) (h0 : current.length ≠ 0)
    (hle : (current ++ sepNL ++ paragraph).length ≤ targetChars) :
    chunkStep targetChars overlapChars (chunks, current) paragraph =
      (chunks, current ++ sepNL ++ paragraph) := by
  simp only [chunkStep]
  rw [if_neg h0, if_pos hle]

theorem chunkStep_flush (targetChars overlapChars : Nat) (chunks : List JStr)
    (current paragraph : JStr) (h0 : current.length ≠ 0)
    (hgt : targetChars < (current ++ sepNL ++ paragraph).length)
    (hsmall : ¬ 3 * targetChars < 2 * (chunkSeed overlapChars current paragraph).length) :
    chunkStep targetChars overlapChars (chunks, current) paragraph =
      (chunks ++ [current], chunkSeed overlapChars current paragraph) := by
  simp only [chunkStep]
  rw [if_neg h0, if_neg (not_le.mpr hgt), if_neg hsmall]

theorem chunkStep_flush_split (targetChars overlapChars : Nat) (chunks : List JStr)
    (current paragraph : JStr) (h0 : current.length ≠ 0)
    (hgt : targetChars < (current ++ sepNL ++ paragraph).length)
    (hbig : 3 * targetChars < 2 * (chunkSeed overlapChars current paragraph).length) :
    chunkStep targetChars overlapChars (chunks, current) paragraph =
      ((chunks ++ [current]) ++ [(chunkSeed overlapChars current paragraph).take targetChars],
       jsTrim (jsSliceFrom (chunkSeed overlapChars current paragraph)
         ((targetChars : Int) - (overlapChars : Int)))) := by
  simp only [chunkStep]
  rw [if_neg h0, if_neg (not_le.mpr hgt), if_pos hbig]

/-- C5 counterexample: with target 10, buffer of 5 characters and paragraph
of 4 characters, the sum 9 does not exceed the target, yet the code flushes,
because the two-character blank-line separator is counted: the claimed
equivalence (flush iff buffer length plus paragraph length exceeds the
target) is false at this input. -/
theorem chunk_flush_counterexample :
    ¬ (((chunkStep 10 3 ([], ("abcde").data) (("fghi").data)).1 ≠ ([] : List JStr)) ↔
        10 < ("abcde").data.length + ("fghi").data.length) := by
  decide

/-- C5 (amended): for a non-empty buffer, the buffer is flushed before the
paragraph is added if and only if
`len(buffer) + 2 + len(paragraph) > target_size` (the candidate joined with
the two-character blank-line separator exceeds the target); and when the
flush happens and the seeded buffer does not trigger the oversize
hard-split, the next buffer is the trimmed trailing `overlap_size`
characters of the flushed buffer joined to the new paragraph by a blank
line (the paragraph alone when the trimmed overlap is empty), which is
`chunkSeed`. -/
theorem chunk_flush_boundary (targetChars overlapChars : Nat) (chunks : List JStr)
    (current paragraph : JStr) (hne : current ≠ []) :
    (((chunkStep targetChars overlapChars (chunks, current) paragraph).1 ≠ chunks) ↔
      targetChars < current.length + 2 + paragraph.length) ∧
    (targetChars < current.length + 2 + paragraph.length →
      2 * (chunkSeed overlapChars current paragraph).length ≤ 3 * targetChars →
      chunkStep targetChars overlapChars (chunks, current) paragraph =
        (chunks ++ [current], chunkSeed overlapChars current paragraph)) := by
  have h0 : current.length ≠ 0 := fun h => hne (List.length_eq_zero.mp h)
  have hcand : (current ++ sepNL ++ paragraph).length
      = current.length + 2 + paragraph.length := by
    simp only [List.append_assoc, List.length_append, sepNL, List.length_cons, List.length_nil]
    omega
  refine ⟨⟨?_, ?_⟩, ?_⟩
  · intro hflush
    by_contra hle
    push_neg at hle
    apply hflush
    rw [chunkStep_no_flush targetChars overlapChars chunks current paragraph h0 (by omega)]
  · intro hgt
    have hgt2 : targetChars < (current ++ sepNL ++ paragraph).length := by omega
    by_cases hbig : 3 * targetChars < 2 * (chunkSeed overlapChars current paragraph).length
    · rw [chunkStep_flush_split targetChars overlapChars chunks current paragraph h0 hgt2 hbig]
      intro heq
      have hlen2 := congrArg List.length heq
      simp at hlen2
    · rw [chunkStep_flush targetChars overlapChars chunks current paragraph h0 hgt2 hbig]
      intro heq
      have hlen2 := congrArg List.length heq
      simp at hlen2
  · intro hgt hsmall
    have hgt2 : targetChars < (current ++ sepNL ++ paragraph).length := by omega
    exact chunkStep_flush targetChars overlapChars chunks current paragraph h0 hgt2 (by omega)

/-- Witness for the amended C5 at the counterexample input. -/
theorem chunk_flush_boundary_witness :
    (((chunkStep 10 3 ([], ("abcde").data) (("fghi").data)).1 ≠ ([] : List JStr)) ↔
      10 < ("abcde").data.length + 2 + ("fghi").data.length) ∧
    chunkStep 10 3 ([], ("abcde").data) (("fghi").data) =
      ([("abcde").data], chunkSeed 3 (("abcde").data) (("fghi").data)) :=
  ⟨(chunk_flush_boundary 10 3 [] (("abcde").data) (("fghi").data) (by decide)).1,
   (chunk_flush_boundary 10 3 [] (("abcde").data) (("fghi").data) (by decide)).2
     (by decide) (by decide)⟩

/-! ## C10: string field normalization -/

theorem dropWhile_idem (p : Char → Bool) (l : List Char) :
    (l.dropWhile p).dropWhile p = l.dropWhile p := by
  induction l with
  | nil => rfl
  | cons a t ih =>
    by_cases h : p a
    · simp [List.dropWhile_cons, h, ih]
    · simp [List.dropWhile_cons, h]

theorem dropWhile_eq_drop (p : Char → Bool) (l : List Char) :
    l.dropWhile p = l.drop (l.takeWhile p).length := by
  induction l with
  | nil => rfl
  | cons a t ih =>
    by_cases h : p a
    · simp [List.dropWhile_cons, List.takeWhile_cons, h, ih]
    · simp [List.dropWhile_cons, List.takeWhile_cons, h]

theorem trimLeft_idem (l : JStr) : trimLeft (trimLeft l) = trimLeft l :=
  dropWhile_idem _ _

theorem trimRight_idem (l : JStr) : trimRight (trimRight l) = trimRight l := by
  unfold trimRight
  rw [List.reverse_reverse, dropWhile_idem]

theorem trimLeft_prefix_fixed {l : JStr} (hl : trimLeft l = l) {x : JStr} (hx : x <+: l) :
    trimLeft x = x := by
  cases x with
  | nil => rfl
  | cons c t =>
    cases l with
    | nil =>
      obtain ⟨r, hr⟩ := hx
      simp at hr
    | cons d u =>
      obtain ⟨r, hr⟩ := hx
      rw [List.cons_append] at hr
      injection hr with h1 h2
      subst h1
      have hc : isJsSpace c = false := by
        by_contra hcc
        rw [Bool.not_eq_false] at hcc
        unfold trimLeft at hl
        rw [List.dropWhile_cons, if_pos hcc] at hl
        have hle : (u.dropWhile isJsSpace).length ≤ u.length :=
          List.Sublist.length_le (List.dropWhile_sublist _)
        have hlen := congrArg List.length hl
        simp at hlen
        omega
      unfold trimLeft
      rw [List.dropWhile_cons, if_neg (by simp [hc])]

theorem trimRight_prefix_self (l : JStr) : trimRight l <+: l := by
  unfold trimRight
  rw [dropWhile_eq_drop, List.reverse_drop, List.reverse_reverse, List.length_reverse]
  exact List.take_prefix _ _

theorem jsTrim_idem (l : JStr) : jsTrim (jsTrim l) = jsTrim l := by
  unfold jsTrim
  rw [trimLeft_prefix_fixed (trimLeft_idem l) (trimRight_prefix_self (trimLeft l)), trimRight_idem]

theorem jsTrimStr_idem (s : String) : jsTrimStr (jsTrimStr s) = jsTrimStr s := by
  unfold jsTrimStr
  rw [show (String.mk (jsTrim s.data)).data = jsTrim s.data from rfl, jsTrim_idem]

theorem toNullableString_normalized (v : Option String) :
    NormalizedStringField (toNullableString v) := by
  cases v with
  | none => exact Or.inl rfl
  | some s =>
    simp only [toNullableString]
    by_cases h : (jsTrimStr s).isEmpty
    · rw [if_pos h]
      exact Or.inl rfl
    · rw [if_neg h]
      refine Or.inr ⟨jsTrimStr s, rfl, jsTrimStr_idem s, ?_⟩
      intro heq
      rw [heq] at h
      exact h rfl

/-- C10: every string-typed field (shipment id, shipper, consignee, pickup
and delivery datetimes, equipment type, mode, currency, carrier name) of an
extraction returned to the caller is null or a non-empty trimmed string; a
null value stays null and an empty or whitespace-only string normalizes to
null; and the extraction confidence is computed on the normalized record,
so a normalized-away field counts as missing in the completeness ratio. -/
theorem extraction_string_fields_normalized (output : RawShipmentOutput) :
    (NormalizedStringField (normalizeShipmentOutput output).shipment_id ∧
     NormalizedStringField (normalizeShipmentOutput output).shipper ∧
     NormalizedStringField (normalizeShipmentOutput output).consignee ∧
     NormalizedStringField (normalizeShipmentOutput output).pickup_datetime ∧
     NormalizedStringField (normalizeShipmentOutput output).delivery_datetime ∧
     NormalizedStringField (normalizeShipmentOutput output).equipment_type ∧
     NormalizedStringField (normalizeShipmentOutput output).mode ∧
     NormalizedStringField (normalizeShipmentOutput output).currency ∧
     NormalizedStringField (normalizeShipmentOutput output).carrier_name) ∧
    (∀ v : Option String, toNullableString v = none ↔
      (v = none ∨ ∃ s, v = some s ∧ jsTrimStr s = "")) ∧
    (extractShipmentResult output).2 =
      computeExtractionConfidence (normalizeShipmentOutput output)
        output.self_assessed_confidence := by
  refine ⟨⟨toNullableString_normalized _, toNullableString_normalized _,
    toNullableString_normalized _, toNullableString_normalized _,
    toNullableString_normalized _, toNullableString_normalized _,
    toNullableString_normalized _, toNullableString_normalized _,
    toNullableString_normalized _⟩, ?_, rfl⟩
  intro v
  constructor
  · intro h
    cases v with
    | none => exact Or.inl rfl
    | some s =>
      refine Or.inr ⟨s, rfl, ?_⟩
      simp only [toNullableString] at h
      by_cases he : (jsTrimStr s).isEmpty
      · rw [String.isEmpty_iff] at he
        exact he
      · rw [if_neg he] at h
        exact absurd h (by simp)
  · intro h
    rcases h with rfl | ⟨s, rfl, hs⟩
    · rfl
    · simp [toNullableString, hs, String.isEmpty_iff]

/-- Witness for C10 at a concrete raw output with a whitespace-only shipper. -/
theorem extraction_string_fields_normalized_witness :
    NormalizedStringField
      (normalizeShipmentOutput
        { shipment_id := some ("S1"), shipper := some ("   "), consignee := none
          pickup_datetime := none, delivery_datetime := none, equipment_type := none
          mode := none, rate := none, currency := none, weight := none
          carrier_name := none, self_assessed_confidence := 1 }).shipper ∧
    toNullableString (some ("   ")) = none :=
  ⟨(extraction_string_fields_normalized
      { shipment_id := some ("S1"), shipper := some ("   "), consignee := none
        pickup_datetime := none, delivery_datetime := none, equipment_type := none
        mode := none, rate := none, currency := none, weight := none
        carrier_name := none, self_assessed_confidence := 1 }).1.2.1,
   ((extraction_string_fields_normalized
      { shipment_id := some ("S1"), shipper := some ("   "), consignee := none
        pickup_datetime := none, delivery_datetime := none, equipment_type := none
        mode := none, rate := none, currency := none, weight := none
        carrier_name := none, self_assessed_confidence := 1 }).2.1
      (some ("   "))).mpr (Or.inr ⟨"   ", rfl, by decide⟩)⟩

/-! ## C7: namespace consistency of multi-document asks -/

theorem uniqueInOrder_aux (l : List String) (acc : List String) (x : String) :
    (x ∈ l.foldl (fun acc y => if y ∈ acc then acc else acc ++ [y]) acc) ↔
      (x ∈ acc ∨ x ∈ l) := by
  induction l generalizing acc with
  | nil => simp
  | cons a t ih =>
    simp only [List.foldl_cons]
    by_cases h : a ∈ acc
    · rw [if_pos h, ih]
      constructor
      · rintro (hx | hx)
        · exact Or.inl hx
        · exact Or.inr (List.mem_cons_of_mem a hx)
      · rintro (hx | hx)
        · exact Or.inl hx
        · rcases List.mem_cons.mp hx with rfl | hx
          · exact Or.inl h
          · exact Or.inr hx
    · rw [if_neg h, ih]
      simp only [List.mem_append, List.mem_singleton, List.mem_cons]
      tauto

theorem mem_uniqueInOrder (l : List String) (x : String) :
    x ∈ uniqueInOrder l ↔ x ∈ l := by
  unfold uniqueInOrder
  rw [uniqueInOrder_aux]
  simp

theorem uniqueInOrder_ne_nil {l : List String} (h : l ≠ []) : uniqueInOrder l ≠ [] := by
  cases l with
  | nil => exact absurd rfl h
  | cons a t =>
    intro hu
    have hm : a ∈ uniqueInOrder (a :: t) :=
      (mem_uniqueInOrder _ a).mpr (List.mem_cons_self a t)
    rw [hu] at hm
    exact absurd hm (List.not_mem_nil a)

/-- C7: an ask scoping documents whose registry entries span two different
namespaces fails with the InconsistentScope error (status 400) for every
possible retrieval workflow, so retrieval is never consulted; when all
scoped documents share one namespace, scope resolution succeeds. -/
theorem ask_scope_consistency (getItem : String → Option RegistryItem)
    (latest : Option String) (question : String) (documentId : Option String)
    (docIds : List String)
    (hq : jsTrimStr question ≠ "")
    (hfound : ∀ i ∈ cleanedIdsOf docIds, (getItem i).isSome = true) :
    ((∃ a ∈ (cleanedIdsOf docIds).filterMap getItem,
        ∃ b ∈ (cleanedIdsOf docIds).filterMap getItem, a.nspace ≠ b.nspace) →
      ∀ runRag : String → String → List String → AskResponse,
        askDocumentQuestion getItem latest runRag question documentId (some docIds) =
          .error { message := inconsistentScopeMessage, status := 400 }) ∧
    ((∀ a ∈ (cleanedIdsOf docIds).filterMap getItem,
        ∀ b ∈ (cleanedIdsOf docIds).filterMap getItem, a.nspace = b.nspace) →
      cleanedIdsOf docIds ≠ [] →
      ∃ scope : AskScope,
        resolveAskContext getItem latest documentId (some docIds) = .ok scope ∧
        scope.documentIds = cleanedIdsOf docIds) := by
  have hqb : (jsTrimStr question).isEmpty = false := by
    rw [Bool.eq_false_iff]
    intro hb
    exact hq ((String.isEmpty_iff _).mp hb)
  have hmiss : (cleanedIdsOf docIds).filter (fun i => (getItem i).isNone) = [] := by
    rw [List.filter_eq_nil_iff]
    intro i hi
    have := hfound i hi
    simp [Option.isNone, this]
    cases hg : getItem i with
    | none => rw [hg] at this; simp at this
    | some it => simp
  constructor
  · intro hmix runRag
    obtain ⟨a, ha, b, hb, hab⟩ := hmix
    have hclne : cleanedIdsOf docIds ≠ [] := by
      intro hcl
      rw [hcl] at ha
      simp at ha
    have hrawne : ((docIds.map jsTrimStr).filter (fun i => !i.isEmpty)) ≠ [] := by
      intro hraw
      apply hclne
      unfold cleanedIdsOf
      rw [hraw]
      rfl
    have hrawlen : 0 < ((docIds.map jsTrimStr).filter (fun i => !i.isEmpty)).length :=
      List.length_pos.mpr hrawne
    have hres : resolveAskContext getItem latest documentId (some docIds) =
        .error { message := inconsistentScopeMessage, status := 400 } := by
      unfold resolveAskContext
      simp only [Option.getD_some]
      rw [if_pos hrawlen]
      rw [show uniqueInOrder ((docIds.map jsTrimStr).filter (fun i => !i.isEmpty)) =
            cleanedIdsOf docIds from rfl]
      rw [hmiss]
      rw [if_neg (by simp)]
      rcases hresolved : (cleanedIdsOf docIds).filterMap getItem with _ | ⟨first, rest⟩
      · rw [hresolved] at ha
        simp at ha
      · have hallf : ((first :: rest).all (fun item => item.nspace == first.nspace)) = false := by
          rw [Bool.eq_false_iff]
          intro hall
          have hx := List.all_eq_true.mp hall
          rw [hresolved] at ha hb
          have ha2 : a.nspace = first.nspace := by
            have := hx a ha
            simpa using this
          have hb2 : b.nspace = first.nspace := by
            have := hx b hb
            simpa using this
          exact hab (ha2.trans hb2.symm)
        simp only [hallf, Bool.false_eq_true, if_false]
    unfold askDocumentQuestion
    simp only [hqb, Bool.false_eq_true, if_false]
    rw [hres]
  · intro hsame hclne
    have hrawne : ((docIds.map jsTrimStr).filter (fun i => !i.isEmpty)) ≠ [] := by
      intro hraw
      apply hclne
      unfold cleanedIdsOf
      rw [hraw]
      rfl
    have hrawlen : 0 < ((docIds.map jsTrimStr).filter (fun i => !i.isEmpty)).length :=
      List.length_pos.mpr hrawne
    unfold resolveAskContext
    simp only [Option.getD_some]
    rw [if_pos hrawlen]
    rw [show uniqueInOrder ((docIds.map jsTrimStr).filter (fun i => !i.isEmpty)) =
          cleanedIdsOf docIds from rfl]
    rw [hmiss]
    rw [if_neg (by simp)]
    rcases hresolved : (cleanedIdsOf docIds).filterMap getItem with _ | ⟨first, rest⟩
    · exfalso
      obtain ⟨c, hc⟩ := List.exists_mem_of_ne_nil _ hclne
      have hsomec := hfound c hc
      rcases hg : getItem c with _ | it
      · rw [hg] at hsomec
        simp at hsomec
      · have : it ∈ (cleanedIdsOf docIds).filterMap getItem := by
          rw [List.mem_filterMap]
          exact ⟨c, hc, hg⟩
        rw [hresolved] at this
        exact absurd this (List.not_mem_nil it)
    · have halltrue : ((first :: rest).all (fun item => item.nspace == first.nspace)) = true := by
        rw [List.all_eq_true]
        intro x hx
        have hxm : x ∈ (cleanedIdsOf docIds).filterMap getItem := by rw [hresolved]; exact hx
        have hfm : first ∈ (cleanedIdsOf docIds).filterMap getItem := by
          rw [hresolved]
          exact List.mem_cons_self first rest
        simpa using hsame x hxm first hfm
      simp only [halltrue, if_true]
      exact ⟨_, rfl, rfl⟩

/-- Witness for C7: documents d1 and d2 live in different namespaces, so the
ask fails with InconsistentScope; documents d1 and d3 share a namespace, so
scope resolution succeeds. -/
theorem ask_scope_consistency_witness :
    (askDocumentQuestion sampleRegistry none (fun _ _ _ => finalizeRag defaultEnv [] ("") [] none)
        ("q") none (some ["d1", "d2"]) =
      .error { message := inconsistentScopeMessage, status := 400 }) ∧
    (∃ scope : AskScope,
      resolveAskContext sampleRegistry none none (some ["d1", "d3"]) = .ok scope ∧
      scope.documentIds = cleanedIdsOf ["d1", "d3"]) :=
  ⟨(ask_scope_consistency sampleRegistry none ("q") none ["d1", "d2"] (by decide)
      (by decide)).1
      (by
        refine ⟨sampleItemA, ?_, sampleItemB, ?_, by decide⟩ <;> decide)
      (fun _ _ _ => finalizeRag defaultEnv [] ("") [] none),
   (ask_scope_consistency sampleRegistry none ("q") none ["d1", "d3"] (by decide)
      (by decide)).2
      (by decide)
      (by decide)⟩

/-! ## C9: upload writes the index before the registry -/

theorem uploadDocumentModel_unsupported (basePrefix fileName : String)
    (tenantId : Option String) (documentId uploadedAt : String)
    (parsed : ParsedDocumentPayload)
    (h : supportedFileTypes.contains (getExtension fileName) = false) :
    uploadDocumentModel basePrefix fileName tenantId documentId uploadedAt parsed =
      ([], .error { message := "Unsupported file type " ++ getExtension fileName ++
                      ". Supported: pdf, docx, txt."
                    status := 400 }) := by
  simp only [uploadDocumentModel]
  rw [if_pos (by simpa using h)]

theorem uploadDocumentModel_noChunks (basePrefix fileName : String)
    (tenantId : Option String) (documentId uploadedAt : String)
    (parsed : ParsedDocumentPayload)
    (hs : supportedFileTypes.contains (getExtension fileName) = true)
    (hch : (uploadChunksOf fileName tenantId documentId uploadedAt parsed).length = 0) :
    uploadDocumentModel basePrefix fileName tenantId documentId uploadedAt parsed =
      ([], .error { message := "Could not extract usable text from this document."
                    status := 422 }) := by
  simp only [uploadDocumentModel]
  rw [if_neg (by simpa using hs), if_pos hch]

theorem uploadDocumentModel_ok (basePrefix fileName : String)
    (tenantId : Option String) (documentId uploadedAt : String)
    (parsed : ParsedDocumentPayload)
    (hs : supportedFileTypes.contains (getExtension fileName) = true)
    (hch : ¬ (uploadChunksOf fileName tenantId documentId uploadedAt parsed).length = 0) :
    uploadDocumentModel basePrefix fileName tenantId documentId uploadedAt parsed =
      ([UploadEvent.upsertChunks (uploadChunksOf fileName tenantId documentId uploadedAt parsed)
          (basePrefix ++ ":" ++ uploadTenantOf tenantId),
        UploadEvent.saveRegistry
          { documentId := documentId, fileName := fileName, uploadedAt := uploadedAt
            nspace := basePrefix ++ ":" ++ uploadTenantOf tenantId
            tenantId := uploadTenantOf tenantId
            chunkCount := (uploadChunksOf fileName tenantId documentId uploadedAt
              parsed).length }],
       .ok { document_id := documentId, file_name := fileName
             chunk_count := (uploadChunksOf fileName tenantId documentId uploadedAt parsed).length
             nspace := basePrefix ++ ":" ++ uploadTenantOf tenantId
             uploaded_at := uploadedAt }) := by
  simp only [uploadDocumentModel]
  rw [if_neg (by simpa using hs), if_neg hch]

/-- C9: in every prefix of the upload event trace (every reachable state of
an upload), a registry save event is present only if the upsert of the full
chunk list already happened strictly earlier, and the saved entry counts
exactly those chunks; an upload producing zero chunks emits no event at all
and fails. -/
theorem upload_atomic_visibility (basePrefix fileName : String) (tenantId : Option String)
    (documentId uploadedAt : String) (parsed : ParsedDocumentPayload) :
    (∀ (k : Nat) (item : RegistryItem),
      UploadEvent.saveRegistry item ∈
        ((uploadDocumentModel basePrefix fileName tenantId documentId uploadedAt
          parsed).1.take k) →
      (∃ ns, UploadEvent.upsertChunks
          (uploadChunksOf fileName tenantId documentId uploadedAt parsed) ns ∈
          ((uploadDocumentModel basePrefix fileName tenantId documentId uploadedAt
            parsed).1.take (k - 1))) ∧
      item.chunkCount = (uploadChunksOf fileName tenantId documentId uploadedAt
        parsed).length) ∧
    (uploadChunksOf fileName tenantId documentId uploadedAt parsed = [] →
      (uploadDocumentModel basePrefix fileName tenantId documentId uploadedAt parsed).1 = [] ∧
      ∃ err, (uploadDocumentModel basePrefix fileName tenantId documentId uploadedAt
        parsed).2 = .error err) := by
  cases hsupp : supportedFileTypes.contains (getExtension fileName) with
  | false =>
    have heq := uploadDocumentModel_unsupported basePrefix fileName tenantId documentId
      uploadedAt parsed hsupp
    constructor
    · intro k item hmemk
      rw [heq] at hmemk
      simp at hmemk
    · intro _
      rw [heq]
      exact ⟨rfl, ⟨_, rfl⟩⟩
  | true =>
    by_cases hch : (uploadChunksOf fileName tenantId documentId uploadedAt parsed).length = 0
    · have heq := uploadDocumentModel_noChunks basePrefix fileName tenantId documentId
        uploadedAt parsed hsupp hch
      constructor
      · intro k item hmemk
        rw [heq] at hmemk
        simp at hmemk
      · intro _
        rw [heq]
        exact ⟨rfl, ⟨_, rfl⟩⟩
    · have heq := uploadDocumentModel_ok basePrefix fileName tenantId documentId
        uploadedAt parsed hsupp hch
      constructor
      · intro k item hmemk
        rw [heq] at hmemk ⊢
        match k with
        | 0 => simp at hmemk
        | 1 => simp at hmemk
        | (n + 2) =>
          have h21 : n + 2 - 1 = n + 1 := by omega
          rw [h21]
          constructor
          · exact ⟨basePrefix ++ ":" ++ uploadTenantOf tenantId, by simp⟩
          · simp only [List.take_succ_cons, List.take_nil] at hmemk
            rcases List.mem_cons.mp hmemk with h1 | h2
            · exact absurd h1 (by simp)
            · rcases List.mem_cons.mp h2 with h3 | h4
              · injection h3 with h5
                rw [h5]
              · exact absurd h4 (List.not_mem_nil _)
      · intro hnil
        exact absurd (congrArg List.length hnil) (by simpa using hch)

/-- Witness for C9: a whitespace-only upload produces zero chunks, emits no
external write, and fails. -/
theorem upload_atomic_visibility_witness :
    (uploadDocumentModel ("base") ("a.txt") none ("doc-1") ("t0") sampleParsedEmpty).1 = [] ∧
    ∃ err, (uploadDocumentModel ("base") ("a.txt") none ("doc-1") ("t0")
      sampleParsedEmpty).2 = .error err :=
  (upload_atomic_visibility ("base") ("a.txt") none ("doc-1") ("t0") sampleParsedEmpty).2
    (by decide)

/-! ## C4: the evidence pool invariant -/

theorem mem_scoresOf {i : String} {l : List SourceSnippet} {q : ℚ} :
    q ∈ scoresOf i l ↔ ∃ s ∈ l, s.id = i ∧ s.score = q := by
  simp only [scoresOf, List.mem_map, List.mem_filter, beq_iff_eq]
  constructor
  · rintro ⟨s, ⟨hs, hid⟩, hq⟩
    exact ⟨s, hs, hid, hq⟩
  · rintro ⟨s, hs, hid, hq⟩
    exact ⟨s, ⟨hs, hid⟩, hq⟩

theorem scoresOf_append (i : String) (l₁ l₂ : List SourceSnippet) :
    scoresOf i (l₁ ++ l₂) = scoresOf i l₁ ++ scoresOf i l₂ := by
  simp [scoresOf, List.filter_append]

theorem scoresOf_singleton_ne {i : String} {s : SourceSnippet} (h : s.id ≠ i) :
    scoresOf i [s] = [] := by
  simp [scoresOf, h]

theorem scoresOf_singleton_eq {i : String} {s : SourceSnippet} (h : s.id = i) :
    scoresOf i [s] = [s.score] := by
  simp [scoresOf, h]

theorem insertSnippet_spec {input acc : List SourceSnippet} (s : SourceSnippet)
    (h : IdMax input acc) : IdMax (input ++ [s]) (insertSnippet acc s) := by
  obtain ⟨hnd, hmax, hcov⟩ := h
  unfold insertSnippet
  by_cases hin : acc.any (fun c => c.id == s.id) = true
  · rw [if_pos hin]
    have hids : (acc.map
        (fun c => if c.id == s.id then (if c.score < s.score then s else c) else c)).map
          (fun x => x.id) = acc.map (fun x => x.id) := by
      rw [List.map_map]
      apply List.map_congr_left
      intro c _
      show (if c.id == s.id then (if c.score < s.score then s else c) else c).id = c.id
      by_cases hc : c.id = s.id
      · rw [if_pos (by simp [hc])]
        by_cases hsc : c.score < s.score
        · rw [if_pos hsc, ← hc]
        · rw [if_neg hsc]
      · rw [if_neg (by simp [hc])]
    refine ⟨by rw [hids]; exact hnd, ?_, ?_⟩
    · intro e he
      rw [List.mem_map] at he
      obtain ⟨c, hc, rfl⟩ := he
      by_cases hcs : c.id = s.id
      · rw [if_pos (by simp [hcs])]
        have hidfc : (if c.score < s.score then s else c).id = c.id := by
          by_cases hsc : c.score < s.score
          · rw [if_pos hsc, ← hcs]
          · rw [if_neg hsc]
        rw [hidfc]
        have hsplit : scoresOf c.id (input ++ [s]) = scoresOf c.id input ++ [s.score] := by
          rw [scoresOf_append, scoresOf_singleton_eq hcs.symm]
        rw [hsplit]
        obtain ⟨hmem1, hub1⟩ := hmax c hc
        by_cases hsc : c.score < s.score
        · rw [if_pos hsc]
          constructor
          · exact List.mem_append.mpr (Or.inr (List.mem_singleton_self _))
          · intro q hq
            rcases List.mem_append.mp hq with hq1 | hq2
            · have := hub1 q hq1
              linarith
            · rw [List.mem_singleton] at hq2
              rw [hq2]
        · rw [if_neg hsc]
          push_neg at hsc
          constructor
          · exact List.mem_append.mpr (Or.inl hmem1)
          · intro q hq
            rcases List.mem_append.mp hq with hq1 | hq2
            · exact hub1 q hq1
            · rw [List.mem_singleton] at hq2
              rw [hq2]
              exact hsc
      · rw [if_neg (by simp [hcs])]
        have hsplit : scoresOf c.id (input ++ [s]) = scoresOf c.id input := by
          rw [scoresOf_append, scoresOf_singleton_ne (fun h2 => hcs h2.symm),
            List.append_nil]
        rw [hsplit]
        exact hmax c hc
    · intro t ht
      rw [hids]
      rcases List.mem_append.mp ht with ht1 | ht2
      · exact hcov t ht1
      · rw [List.mem_singleton] at ht2
        subst ht2
        rw [List.any_eq_true] at hin
        obtain ⟨c, hc, hcs⟩ := hin
        rw [List.mem_map]
        exact ⟨c, hc, by simpa using hcs⟩
  · rw [if_neg hin]
    have hnotin : ∀ c ∈ acc, ¬ (c.id = s.id) := by
      intro c hc hcs
      exact hin (List.any_eq_true.mpr ⟨c, hc, by simp [hcs]⟩)
    have hsid_not : s.id ∉ acc.map (fun x => x.id) := by
      rw [List.mem_map]
      rintro ⟨c, hc, hcid⟩
      exact hnotin c hc hcid
    have hsid_input : ∀ t ∈ input, t.id ≠ s.id := by
      intro t ht hts
      have h2 := hcov t ht
      rw [hts] at h2
      exact hsid_not h2
    refine ⟨?_, ?_, ?_⟩
    · rw [List.map_append, List.nodup_append]
      refine ⟨hnd, List.nodup_singleton _, ?_⟩
      intro a ha hb
      simp only [List.map_cons, List.map_nil, List.mem_singleton] at hb
      subst hb
      exact hsid_not ha
    · intro e he
      rcases List.mem_append.mp he with he1 | he2
      · have hne : e.id ≠ s.id := hnotin e he1
        have hsplit : scoresOf e.id (input ++ [s]) = scoresOf e.id input := by
          rw [scoresOf_append, scoresOf_singleton_ne (fun h2 => hne h2.symm),
            List.append_nil]
        rw [hsplit]
        exact hmax e he1
      · rw [List.mem_singleton] at he2
        rw [he2]
        have hempty : scoresOf s.id input = [] := by
          unfold scoresOf
          have h2 : input.filter (fun t => t.id == s.id) = [] :=
            List.filter_eq_nil_iff.mpr (fun t ht => by simp [hsid_input t ht])
          rw [h2]
          rfl
        have hsplit : scoresOf s.id (input ++ [s]) = [s.score] := by
          rw [scoresOf_append, hempty, List.nil_append, scoresOf_singleton_eq rfl]
        rw [hsplit]
        refine ⟨List.mem_singleton_self _, ?_⟩
        intro q hq
        rw [List.mem_singleton] at hq
        rw [hq]
    · intro t ht
      rw [List.map_append]
      rcases List.mem_append.mp ht with ht1 | ht2
      · exact List.mem_append.mpr (Or.inl (hcov t ht1))
      · rw [List.mem_singleton] at ht2
        subst ht2
        exact List.mem_append.mpr (Or.inr (by simp))

theorem combineById_spec (l : List SourceSnippet) : IdMax l (combineById l) := by
  have haux : ∀ (l2 input acc : List SourceSnippet),
      IdMax input acc → IdMax (input ++ l2) (l2.foldl insertSnippet acc) := by
    intro l2
    induction l2 with
    | nil =>
      intro input acc h
      simpa using h
    | cons a t ih =>
      intro input acc h
      have h3 := ih (input ++ [a]) (insertSnippet acc a) (insertSnippet_spec a h)
      simpa [List.append_assoc] using h3
  have hnil : IdMax [] [] := by
    refine ⟨List.nodup_nil, ?_, ?_⟩ <;> intro x hx <;> simp at hx
  have h2 := haux l [] [] hnil
  simpa [combineById] using h2

theorem sorted_take_ge {S : List SourceSnippet} {n : Nat} (hsort : S.Pairwise scoreGE)
    (q : ℚ) (hcount : n ≤ S.countP (fun x => decide (q ≤ x.score)))
    {e : SourceSnippet} (he : e ∈ S.take n) : q ≤ e.score := by
  by_contra hlt
  push_neg at hlt
  have hsplit : S = S.take n ++ S.drop n := (List.take_append_drop n S).symm
  have hpw := hsort
  rw [hsplit] at hpw
  have hcross := (List.pairwise_append.mp hpw).2.2
  have hdrop0 : (S.drop n).countP (fun x => decide (q ≤ x.score)) = 0 := by
    rw [List.countP_eq_zero]
    intro x hx
    have hxe : scoreGE e x := hcross e he x hx
    unfold scoreGE at hxe
    simp only [decide_eq_true_eq]
    intro hqx
    linarith
  have hcnt_split : S.countP (fun x => decide (q ≤ x.score)) =
      (S.take n).countP (fun x => decide (q ≤ x.score)) +
        (S.drop n).countP (fun x => decide (q ≤ x.score)) := by
    conv_lhs => rw [hsplit]
    exact List.countP_append _ _ _
  have hlen_eq := List.length_eq_countP_add_countP (fun x => decide (q ≤ x.score)) (S.take n)
  have hpos : 0 < (S.take n).countP
      (fun a => decide (¬ (decide (q ≤ a.score)) = true)) := by
    rw [List.countP_pos_iff]
    refine ⟨e, he, ?_⟩
    simp only [decide_eq_true_eq, decide_not, Bool.not_eq_true']
    rw [decide_eq_false_iff_not]
    linarith
  have hlen_le : (S.take n).length ≤ n := by
    rw [List.length_take]
    exact min_le_left _ _
  omega

theorem count_big {M pool : List SourceSnippet} (q : ℚ)
    (hndM : (M.map (fun s => s.id)).Nodup)
    (hndP : (pool.map (fun s => s.id)).Nodup)
    (hbig : ∀ p ∈ pool, ∃ m ∈ M, m.id = p.id ∧ q ≤ m.score) :
    pool.length ≤ M.countP (fun x => decide (q ≤ x.score)) := by
  have hsub : (pool.map (fun s => s.id)) ⊆
      ((M.filter (fun x => decide (q ≤ x.score))).map (fun s => s.id)) := by
    intro i hi
    rw [List.mem_map] at hi
    obtain ⟨p, hp, rfl⟩ := hi
    obtain ⟨m, hm, hmid, hmq⟩ := hbig p hp
    rw [List.mem_map]
    exact ⟨m, List.mem_filter.mpr ⟨hm, by simp [hmq]⟩, hmid⟩
  have hndF : ((M.filter (fun x => decide (q ≤ x.score))).map (fun s => s.id)).Nodup :=
    ((List.filter_sublist M).map _).nodup hndM
  have hsp := (hndP.subperm hsub).length_le
  rw [List.length_map, List.length_map] at hsp
  rw [List.countP_eq_length_filter]
  exact hsp

theorem mergeSources_inv {limit : Nat} {obs pool : List SourceSnippet}
    (h : PoolInv limit obs pool) (inc : List SourceSnippet) :
    PoolInv limit (obs ++ inc) (mergeSources pool inc limit) := by
  obtain ⟨hnd, hlen, hmax, hdom⟩ := h
  obtain ⟨hndM, hmaxM, hcovM⟩ := combineById_spec (pool ++ inc)
  set M := combineById (pool ++ inc) with hMdef
  set S := List.insertionSort scoreGE M with hSdef
  have hperm : S.Perm M := List.perm_insertionSort scoreGE M
  have hsortS : S.Pairwise scoreGE := List.sorted_insertionSort scoreGE M
  have hndS : (S.map (fun s => s.id)).Nodup := (hperm.map _).nodup_iff.mpr hndM
  rw [show mergeSources pool inc limit = S.take limit from rfl]
  have htake_sub : ∀ x ∈ S.take limit, x ∈ M := fun x hx =>
    hperm.mem_iff.mp (List.mem_of_mem_take hx)
  have hcross : ∀ e ∈ S.take limit, ∀ x ∈ S.drop limit, x.score ≤ e.score := by
    have hpw := hsortS
    rw [← List.take_append_drop limit S] at hpw
    exact fun e he x hx => (List.pairwise_append.mp hpw).2.2 e he x hx
  have hfull_of_drop : S.drop limit ≠ [] → (S.take limit).length = limit := by
    intro hd
    rw [List.length_take]
    refine min_eq_left ?_
    by_contra hle
    push_neg at hle
    exact hd (List.drop_eq_nil_of_le hle.le)
  have hfull_of_len : limit ≤ S.length → (S.take limit).length = limit := by
    intro hl
    rw [List.length_take]
    exact min_eq_left hl
  have hMentry : ∀ t ∈ pool ++ inc, ∃ m ∈ M, m.id = t.id ∧ t.score ≤ m.score := by
    intro t ht
    have hidm := hcovM t ht
    rw [List.mem_map] at hidm
    obtain ⟨m, hm, hmid⟩ := hidm
    refine ⟨m, hm, hmid, ?_⟩
    apply (hmaxM m hm).2
    rw [mem_scoresOf]
    exact ⟨t, ht, hmid.symm, rfl⟩
  refine ⟨?_, ?_, ?_, ?_⟩
  · exact (((List.take_sublist limit S).map _).nodup hndS)
  · rw [List.length_take]
    exact min_le_left _ _
  · intro e he
    have heM : e ∈ M := htake_sub e he
    obtain ⟨hmem_e, hub_e⟩ := hmaxM e heM
    constructor
    · rcases List.mem_append.mp (by rwa [scoresOf_append] at hmem_e) with h1 | h2
      · rw [mem_scoresOf] at h1
        obtain ⟨p, hp, hpid, hpsc⟩ := h1
        have h3 := (hmax p hp).1
        rw [hpid, hpsc] at h3
        rw [scoresOf_append]
        exact List.mem_append.mpr (Or.inl h3)
      · rw [scoresOf_append]
        exact List.mem_append.mpr (Or.inr h2)
    · intro q hq
      rcases List.mem_append.mp (by rwa [scoresOf_append] at hq) with hq1 | hq2
      · rw [mem_scoresOf] at hq1
        obtain ⟨t, ht, htid, htsc⟩ := hq1
        by_cases hidp : e.id ∈ pool.map (fun x => x.id)
        · rw [List.mem_map] at hidp
          obtain ⟨p, hp, hpid⟩ := hidp
          have hq_le_p : q ≤ p.score := by
            apply (hmax p hp).2
            rw [mem_scoresOf]
            exact ⟨t, ht, by rw [htid, ← hpid], htsc⟩
          have hp_le_e : p.score ≤ e.score := by
            apply hub_e
            rw [mem_scoresOf]
            exact ⟨p, List.mem_append.mpr (Or.inl hp), hpid, rfl⟩
          linarith
        · have hdomt := hdom t ht (by rwa [htid])
          obtain ⟨hfull, hdome⟩ := hdomt
          have hbig : ∀ p ∈ pool, ∃ m ∈ M, m.id = p.id ∧ q ≤ m.score := by
            intro p hp
            obtain ⟨m, hm, hmid, hms⟩ := hMentry p (List.mem_append.mpr (Or.inl hp))
            have h4 := hdome p hp
            rw [htsc] at h4
            exact ⟨m, hm, hmid, by linarith⟩
          have hcount := count_big q hndM hnd hbig
          rw [hfull] at hcount
          have hcountS : limit ≤ S.countP (fun x => decide (q ≤ x.score)) := by
            rw [List.Perm.countP_eq _ hperm]
            exact hcount
          exact sorted_take_ge hsortS q hcountS he
      · apply hub_e
        rw [scoresOf_append]
        exact List.mem_append.mpr (Or.inr hq2)
  · intro s hs hsid
    rcases List.mem_append.mp hs with hs_obs | hs_inc
    · by_cases hidp : s.id ∈ pool.map (fun x => x.id)
      · rw [List.mem_map] at hidp
        obtain ⟨p, hp, hpid⟩ := hidp
        have hsp : s.score ≤ p.score := by
          apply (hmax p hp).2
          rw [mem_scoresOf]
          exact ⟨s, hs_obs, hpid.symm, rfl⟩
        obtain ⟨m, hm, hmid, hpm⟩ := hMentry p (List.mem_append.mpr (Or.inl hp))
        have hm_not_take : m ∉ S.take limit := by
          intro hmt
          apply hsid
          rw [List.mem_map]
          exact ⟨m, hmt, by rw [hmid, hpid]⟩
        have hmS : m ∈ S := hperm.mem_iff.mpr hm
        rw [← List.take_append_drop limit S] at hmS
        rcases List.mem_append.mp hmS with h1 | h2
        · exact absurd h1 hm_not_take
        · have hdne : S.drop limit ≠ [] := fun h4 => by
            rw [h4] at h2
            exact absurd h2 (List.not_mem_nil m)
          refine ⟨hfull_of_drop hdne, ?_⟩
          intro e he
          have h5 := hcross e he m h2
          linarith
      · obtain ⟨hfull, hdome⟩ := hdom s hs_obs hidp
        have hbig : ∀ p ∈ pool, ∃ m ∈ M, m.id = p.id ∧ s.score ≤ m.score := by
          intro p hp
          obtain ⟨m, hm, hmid, hms⟩ := hMentry p (List.mem_append.mpr (Or.inl hp))
          exact ⟨m, hm, hmid, le_trans (hdome p hp) hms⟩
        have hcount := count_big s.score hndM hnd hbig
        rw [hfull] at hcount
        have hcountS : limit ≤ S.countP (fun x => decide (s.score ≤ x.score)) := by
          rw [List.Perm.countP_eq _ hperm]
          exact hcount
        have hlenS : limit ≤ S.length :=
          le_trans hcountS (List.countP_le_length _)
        refine ⟨hfull_of_len hlenS, ?_⟩
        intro e he
        exact sorted_take_ge hsortS s.score hcountS he
    · obtain ⟨m, hm, hmid, hms⟩ := hMentry s (List.mem_append.mpr (Or.inr hs_inc))
      have hm_not_take : m ∉ S.take limit := by
        intro hmt
        apply hsid
        rw [List.mem_map]
        exact ⟨m, hmt, hmid⟩
      have hmS : m ∈ S := hperm.mem_iff.mpr hm
      rw [← List.take_append_drop limit S] at hmS
      rcases List.mem_append.mp hmS with h1 | h2
      · exact absurd h1 hm_not_take
      · have hdne : S.drop limit ≠ [] := fun h4 => by
          rw [h4] at h2
          exact absurd h2 (List.not_mem_nil m)
        refine ⟨hfull_of_drop hdne, ?_⟩
        intro e he
        have h5 := hcross e he m h2
        linarith

theorem poolHistory_inv (incs : List (List SourceSnippet)) :
    PoolInv 16 incs.flatten (poolHistory incs) := by
  have haux : ∀ (rest : List (List SourceSnippet)) (obs pool : List SourceSnippet),
      PoolInv 16 obs pool →
      PoolInv 16 (obs ++ rest.flatten)
        (rest.foldl (fun p i => mergeSources p i 16) pool) := by
    intro rest
    induction rest with
    | nil =>
      intro obs pool h
      simpa using h
    | cons a t ih =>
      intro obs pool h
      have h3 := ih (obs ++ a) (mergeSources pool a 16) (mergeSources_inv h a)
      simpa [List.flatten_cons, List.append_assoc] using h3
  have hnil : PoolInv 16 [] [] := by
    refine ⟨List.nodup_nil, by simp, ?_, ?_⟩
    · intro e he
      simp at he
    · intro s hs
      simp at hs
  have h2 := haux incs [] [] hnil
  simpa [poolHistory] using h2

/-- C4: after any sequence of merges of retrieval results into the evidence
pool, the pool holds at most one entry per snippet id; that entry bears the
maximum score ever observed for its id across all merges; the pool never
exceeds 16 entries; and any observation whose id was evicted (or never
kept) is dominated by every retained entry, the pool being full — the
lowest-scoring entries are the ones evicted. -/
theorem evidence_pool_invariant (incs : List (List SourceSnippet)) :
    ((poolHistory incs).map (fun s => s.id)).Nodup ∧
    (poolHistory incs).length ≤ 16 ∧
    (∀ e ∈ poolHistory incs,
      e.score ∈ scoresOf e.id incs.flatten ∧
      ∀ q ∈ scoresOf e.id incs.flatten, q ≤ e.score) ∧
    (∀ s ∈ incs.flatten, s.id ∉ (poolHistory incs).map (fun x => x.id) →
      (poolHistory incs).length = 16 ∧ ∀ e ∈ poolHistory incs, s.score ≤ e.score) :=
  poolHistory_inv incs

/-- Witness for C4: merging the same id twice leaves one entry carrying the
larger score, which dominates the earlier observation. -/
theorem evidence_pool_invariant_witness :
    (mkSnippet ("x") 2 ∈ poolHistory [[mkSnippet ("x") 1], [mkSnippet ("x") 2]]) ∧
    ((1 : ℚ) ≤ (mkSnippet ("x") 2).score) :=
  ⟨by decide,
   ((evidence_pool_invariant [[mkSnippet ("x") 1], [mkSnippet ("x") 2]]).2.2.1
      (mkSnippet ("x") 2) (by decide)).2 1 (by decide)⟩
